import Mathlib

/-!
Verification of the syllabus-to-calendar extraction pipeline.

This file gives a shallow embedding of the pipeline's core functions:

* `PDFProcessor.cleanText`, `PDFProcessor.isScannedPDF`, `PDFProcessor.processForAI`
  (src/lib/pdf-parser.ts),
* `SyllabusProcessor.createExtractionPrompt`, `SyllabusProcessor.extractEvents`,
  `SyllabusProcessor.extractEventsWithFallback`, `SyllabusProcessor.validateAndCleanResult`,
  `SyllabusProcessor.isValidEvent`, `SyllabusProcessor.isValidDateFormat`,
  `SyllabusProcessor.validateDate`, `SyllabusProcessor.validateEventType`,
  `SyllabusProcessor.validatePriority` (src/lib/openai-client.ts),

and proves the spec's claims about them.  JavaScript strings are modelled as
Lean `String`s (sequences of Unicode scalar values), JSON values by the
inductive `JValue`, thrown exceptions by `Except String`, and the external
OpenAI chat call by an oracle function supplied as a parameter.
-/

/-! ## JavaScript string primitives -/

/-- Characters matched by the JavaScript regex class `\s` (`WhiteSpace` and
`LineTerminator` of ECMA-262); this is also exactly the set of characters
removed from the ends by `String.prototype.trim`. -/
def isJsWs (c : Char) : Bool :=
  c = ' ' || c = '\t' || c = '\n' || c = '\x0b' || c = '\x0c' || c = '\r' ||
  c = '\u00A0' || c = '\u1680' ||
  c = '\u2000' || c = '\u2001' || c = '\u2002' || c = '\u2003' || c = '\u2004' ||
  c = '\u2005' || c = '\u2006' || c = '\u2007' || c = '\u2008' || c = '\u2009' ||
  c = '\u200A' || c = '\u2028' || c = '\u2029' || c = '\u202F' || c = '\u205F' ||
  c = '\u3000' || c = '\uFEFF'

/-- Drop the leading JS whitespace of a character list. -/
def dropLead (l : List Char) : List Char := l.dropWhile isJsWs

/-- Drop the trailing JS whitespace of a character list. -/
def dropTrail (l : List Char) : List Char := (l.reverse.dropWhile isJsWs).reverse

/-- The character-list form of `String.prototype.trim`. -/
def jsTrimL (l : List Char) : List Char := dropTrail (dropLead l)

/-- Model of `String.prototype.trim`. -/
def jsTrim (s : String) : String := ⟨jsTrimL s.data⟩

/-- Model of `String.prototype.toLowerCase`.  Lean's `String.toLower` lowers
ASCII letters; the validator only compares the result against ASCII keyword
lists, and no Unicode character lowercases (in JS) to any character of those
keywords, so this agrees with JS on every comparison the code performs. -/
def jsToLower (s : String) : String := ⟨s.data.map Char.toLower⟩

/-! ## JSON values

`JValue` models the values produced by a successful `JSON.parse`:
null, booleans, numbers, strings, arrays and plain objects.  Numbers are
modelled as integers (every numeric value the validator inspects is used
only for truthiness or carried through opaquely). -/

inductive JValue where
  | jnull : JValue
  | jbool : Bool → JValue
  | jnum : Int → JValue
  | jstr : String → JValue
  | jarr : List JValue → JValue
  | jobj : List (String × JValue) → JValue
deriving Repr

/-- Property access `v[key]`: `none` models JS `undefined` (missing property,
or property access on a primitive / array, which have no string-keyed data
properties after `JSON.parse`). -/
def jGet (v : JValue) (key : String) : Option JValue :=
  match v with
  | .jobj fields => fields.lookup key
  | _ => none

/-- JS truthiness of a value. -/
def jTruthy : JValue → Bool
  | .jnull => false
  | .jbool b => b
  | .jnum n => n != 0
  | .jstr s => !s.isEmpty
  | .jarr _ => true
  | .jobj _ => true

/-- JS truthiness of a possibly-`undefined` value. -/
def jTruthyO : Option JValue → Bool
  | none => false
  | some v => jTruthy v

mutual

/-- Model of the JS `String(v)` conversion on JSON values. -/
def jToString : JValue → String
  | .jnull => "null"
  | .jbool b => if b then "true" else "false"
  | .jnum n => toString n
  | .jstr s => s
  | .jarr xs => jArrJoin xs
  | .jobj _ => "[object Object]"

/-- Model of `Array.prototype.join(",")` as used by `String` on an array:
elements are converted recursively, with `null` becoming the empty string. -/
def jArrJoin : List JValue → String
  | [] => ""
  | [.jnull] => ""
  | [x] => jToString x
  | .jnull :: y :: xs => "," ++ jArrJoin (y :: xs)
  | x :: y :: xs => jToString x ++ "," ++ jArrJoin (y :: xs)

end

/-- Model of `String(v)` where `v` may be `undefined`. -/
def jStringO : Option JValue → String
  | none => "undefined"
  | some v => jToString v

/-- Model of `v || ""` (used for `event.description || ''`). -/
def orEmptyStr (v : Option JValue) : JValue :=
  match v with
  | some w => if jTruthy w then w else .jstr ""
  | none => .jstr ""

/-- Model of JS `Number()` on a string, restricted to the integer-valued
inputs the pipeline can meaningfully produce (`none` models `NaN`).  The
`year` metadata field is the only consumer and no claim depends on it. -/
def strToNumber (s : String) : Option Int :=
  let t := jsTrim s
  if t = "" then some 0 else t.toInt?

/-- Model of the JS `Number(v)` conversion (`none` models `NaN`). -/
def jsToNumber : JValue → Option Int
  | .jnull => some 0
  | .jbool b => some (if b then 1 else 0)
  | .jnum n => some n
  | .jstr s => strToNumber s
  | .jarr xs => strToNumber (jArrJoin xs)
  | .jobj _ => none

/-! ## Date validation (openai-client.ts, `isValidDateFormat` / `validateDate`) -/

/-- Numeric value of an ASCII digit. -/
def digitVal (c : Char) : Nat := c.toNat - '0'.toNat

/-- Gregorian leap-year rule, as used by the ECMAScript `Date` time values. -/
def isLeapYear (y : Nat) : Bool :=
  (y % 4 = 0 && y % 100 != 0) || y % 400 = 0

/-- Number of days in a month of the proleptic Gregorian calendar. -/
def daysInMonth (y m : Nat) : Nat :=
  if m = 1 || m = 3 || m = 5 || m = 7 || m = 8 || m = 10 || m = 12 then 31
  else if m = 4 || m = 6 || m = 9 || m = 11 then 30
  else if isLeapYear y then 29 else 28

/-- Model of `isValidDateFormat`: the regex `^\d\x7b4\x7d-\d\x7b2\x7d-\d\x7b2\x7d$`
followed by `!isNaN(new Date(dateStr).getTime())`.  For a string of that
lexical shape, V8 accepts it exactly when the month is 1..12 and the day is
within the month (ISO date strings are range-checked, not rolled over). -/
def isValidDateFormat (s : String) : Bool :=
  match s.data with
  | [y1, y2, y3, y4, h1, m1, m2, h2, d1, d2] =>
    y1.isDigit && y2.isDigit && y3.isDigit && y4.isDigit &&
    h1 = '-' && m1.isDigit && m2.isDigit && h2 = '-' && d1.isDigit && d2.isDigit &&
    (let y := 1000 * digitVal y1 + 100 * digitVal y2 + 10 * digitVal y3 + digitVal y4
     let m := 10 * digitVal m1 + digitVal m2
     let d := 10 * digitVal d1 + digitVal d2
     decide (1 ≤ m) && decide (m ≤ 12) && decide (1 ≤ d) && decide (d ≤ daysInMonth y m))
  | _ => false

/-- Model of `validateDate`: returns the string unchanged, or throws
`Invalid date format: ...`. -/
def validateDate (dateStr : String) : Except String String :=
  if !isValidDateFormat dateStr then .error ("Invalid date format: " ++ dateStr)
  else .ok dateStr

/-! ## Data model (types/syllabus.ts) -/

/-- The `SyllabusEvent` produced by the validator (the `course` and
`duration` fields are never set by the extraction pipeline and are omitted;
`type` and `priority` are strings coerced into their closed sets by
`validateEventType` / `validatePriority`). -/
structure SyllabusEvent where
  id : String
  title : String
  description : String
  date : String
  time : Option String
  type : String
  priority : String
  location : Option String
deriving Repr, DecidableEq

/-- The `ProcessedSyllabus` result.  `year` is `none` when the raw field is
falsy or its `Number()` conversion is `NaN`. -/
structure ProcessedSyllabus where
  events : List SyllabusEvent
  courseName : Option String
  instructor : Option String
  semester : Option String
  year : Option Int
deriving Repr, DecidableEq

/-! ## Response validator (openai-client.ts) -/

/-- The closed set of event types. -/
def validTypes : List String :=
  ["assignment", "exam", "reading", "lecture", "project", "quiz", "other"]

/-- The closed set of priorities. -/
def validPriorities : List String := ["high", "medium", "low"]

/-- Model of `validateEventType`: `String(type).toLowerCase()` kept when it is
in `validTypes`, otherwise `other`.  The argument is the raw `event.type`
value (possibly `undefined`). -/
def validateEventType (type? : Option JValue) : String :=
  let lowerType := jsToLower (jStringO type?)
  if validTypes.contains lowerType then lowerType else "other"

/-- Model of `validatePriority`: `String(priority).toLowerCase()` kept when it
is in `validPriorities`, otherwise `medium`. -/
def validatePriority (priority? : Option JValue) : String :=
  let lowerPriority := jsToLower (jStringO priority?)
  if validPriorities.contains lowerPriority then lowerPriority else "medium"

/-- Model of `isValidEvent`: the candidate is truthy, has a string `title`
that is non-empty after trimming, and has a string `date` accepted by
`isValidDateFormat`. -/
def isValidEvent (event : JValue) : Bool :=
  jTruthy event &&
  (match jGet event "title" with
   | some (.jstr t) => (jsTrim t).length > 0
   | _ => false) &&
  (match jGet event "date" with
   | some (.jstr d) => isValidDateFormat d
   | _ => false)

/-- Construction of the cleaned event pushed by `validateAndCleanResult` for a
candidate that passed `isValidEvent` (the `id` argument stands for the value
of `generateEventId()`, which is threaded in as a supply).  `validateDate` can
throw, hence the `Except`. -/
def buildEvent (id : String) (event : JValue) : Except String SyllabusEvent :=
  match validateDate (jStringO (jGet event "date")) with
  | .error m => .error m
  | .ok date =>
    .ok { id := id
          title := jsTrim (jStringO (jGet event "title"))
          description := jsTrim (jToString (orEmptyStr (jGet event "description")))
          date := date
          time := if jTruthyO (jGet event "time")
                  then some (jsTrim (jStringO (jGet event "time"))) else none
          type := validateEventType (jGet event "type")
          priority := validatePriority (jGet event "priority")
          location := if jTruthyO (jGet event "location")
                      then some (jsTrim (jStringO (jGet event "location"))) else none }

/-- The `for (const event of result.events)` loop of `validateAndCleanResult`:
candidates failing `isValidEvent` are skipped, the rest are cleaned and kept
in order.  `ids k` is the id generated for the k-th pushed event. -/
def cleanEvents (ids : Nat → String) (k : Nat) : List JValue → Except String (List SyllabusEvent)
  | [] => .ok []
  | e :: rest =>
    if isValidEvent e then
      match buildEvent (ids k) e with
      | .error m => .error m
      | .ok ev =>
        match cleanEvents ids (k + 1) rest with
        | .error m => .error m
        | .ok evs => .ok (ev :: evs)
    else cleanEvents ids k rest

/-- Model of `typeof result === "object"` (true for objects, arrays and
`null`). -/
def jsTypeofObject : JValue → Bool
  | .jobj _ => true
  | .jarr _ => true
  | .jnull => true
  | _ => false

/-- Model of `result.x ? String(result.x).trim() : undefined` for the course
metadata fields. -/
def optStrField (result : JValue) (key : String) : Option String :=
  if jTruthyO (jGet result key) then some (jsTrim (jStringO (jGet result key))) else none

/-- The events collected by `validateAndCleanResult`: the cleaned valid
events of `result.events` when that field is an array (`Array.isArray`),
no events otherwise. -/
def eventsField (ids : Nat → String) (result : JValue) : Except String (List SyllabusEvent) :=
  match jGet result "events" with
  | some (.jarr cs) => cleanEvents ids 0 cs
  | _ => .ok []

/-- Model of `validateAndCleanResult`: rejects non-objects (the JS test
`!result || typeof result !== "object"`) with `Invalid result format`,
collects the cleaned valid events, and copies the metadata fields through. -/
def validateAndCleanResult (ids : Nat → String) (result : JValue) :
    Except String ProcessedSyllabus :=
  if !(jTruthy result && jsTypeofObject result) then .error "Invalid result format"
  else
    match eventsField ids result with
    | .error m => .error m
    | .ok events =>
      .ok { events := events
            courseName := optStrField result "courseName"
            instructor := optStrField result "instructor"
            semester := optStrField result "semester"
            year := if jTruthyO (jGet result "year")
                    then jsToNumber ((jGet result "year").getD .jnull) else none }

/-! ### Specification-side mirror of the per-candidate construction

`mkCleanEvent` and `keptEvents` restate, as total functions, what §4.5 of the
spec says the validator does with the valid candidates; the theorems below
relate them to `buildEvent` / `cleanEvents` / `validateAndCleanResult`. -/

/-- The cleaned event built from a valid candidate (total form). -/
def mkCleanEvent (id : String) (event : JValue) : SyllabusEvent :=
  { id := id
    title := jsTrim (jStringO (jGet event "title"))
    description := jsTrim (jToString (orEmptyStr (jGet event "description")))
    date := jStringO (jGet event "date")
    time := if jTruthyO (jGet event "time")
            then some (jsTrim (jStringO (jGet event "time"))) else none
    type := validateEventType (jGet event "type")
    priority := validatePriority (jGet event "priority")
    location := if jTruthyO (jGet event "location")
                then some (jsTrim (jStringO (jGet event "location"))) else none }

/-- The valid candidates, in order, cleaned; invalid candidates dropped. -/
def keptEvents (ids : Nat → String) (k : Nat) : List JValue → List SyllabusEvent
  | [] => []
  | e :: rest =>
    if isValidEvent e then mkCleanEvent (ids k) e :: keptEvents ids (k + 1) rest
    else keptEvents ids k rest

/-! ## Extraction prompt builder (openai-client.ts, `createExtractionPrompt`) -/

/-- The fixed instruction text preceding the syllabus text in the prompt
template (everything in the template literal before `$\x7bsyllabusText\x7d`). -/
def promptPrefix : String :=
  "\nYou are an expert at analyzing academic syllabi and extracting important dates and events. \n\nAnalyze the following syllabus text and extract ALL important dates, assignments, exams, and deadlines. Return the results as a JSON object with the following structure:\n\n\x7b\n  \"courseName\": \"Course name if mentioned\",\n  \"instructor\": \"Instructor name if mentioned\", \n  \"semester\": \"Semester if mentioned (e.g. \x27Fall 2024\x27)\",\n  \"year\": 2024,\n  \"events\": [\n    \x7b\n      \"title\": \"Assignment or event title\",\n      \"description\": \"Detailed description of the assignment/event\",\n      \"date\": \"YYYY-MM-DD format\",\n      \"time\": \"HH:MM format if specific time mentioned, otherwise null\",\n      \"type\": \"assignment|exam|reading|lecture|project|quiz|other\",\n      \"priority\": \"high|medium|low\",\n      \"location\": \"location if mentioned, otherwise null\"\n    \x7d\n  ]\n\x7d\n\nFocus on extracting:\n- Assignment due dates\n- Exam dates and times\n- Project deadlines\n- Reading assignments with due dates\n- Quiz dates\n- Important class sessions or lectures\n- Office hours (if recurring)\n- Review sessions\n\nGuidelines:\n1. If no year is specified, assume the current or next academic year\n2. For dates like \"Week 3 Monday\" or \"Sept 15\", try to determine the actual date\n3. Mark exams and major projects as \"high\" priority\n4. Mark regular assignments as \"medium\" priority  \n5. Mark readings and optional items as \"low\" priority\n6. If time is mentioned (e.g. \"due at 11:59 PM\"), include it\n7. Be conservative - only extract clear, definite dates\n8. If a date is ambiguous, include it but note the ambiguity in the description\n\nSyllabus text:\n"

/-- The fixed closing text following the syllabus text in the prompt template. -/
def promptSuffix : String :=
  "\n\nReturn only valid JSON, no additional text or explanations."

/-- Model of `createExtractionPrompt`: the template literal with the syllabus
text substituted.  This is pure template substitution; no model call occurs. -/
def createExtractionPrompt (syllabusText : String) : String :=
  promptPrefix ++ syllabusText ++ promptSuffix

/-! ## Model invocation layer (openai-client.ts, `extractEvents` /
`extractEventsWithFallback`)

The external `openai.chat.completions.create` call is modelled by an oracle
mapping a model name and a prompt to an outcome.  An outcome is either a
thrown error, a missing/empty (falsy) `choices[0]?.message?.content`, or a
received content string represented by the result of `JSON.parse` on it
(`Except.error m` when the parse throws a `SyntaxError` with message `m`). -/

inductive ChatOutcome where
  | failure : String → ChatOutcome
  | success : Option (Except String JValue) → ChatOutcome

/-- Oracle for the external chat API: model name → prompt → outcome. -/
abbrev ChatOracle := String → String → ChatOutcome

/-- The primary model configuration of `extractEvents`. -/
def primaryModel : String := "gpt-4"

/-- The secondary model configuration of the fallback attempt. -/
def fallbackModel : String := "gpt-3.5-turbo"

/-- The attempt body of `extractEvents`: one call to the primary model; a
missing content throws `No response from OpenAI`; a JSON parse failure is
caught and rethrown as `Invalid JSON response from AI model`; the parsed
value goes through `validateAndCleanResult`. -/
def primaryAttempt (oracle : ChatOracle) (ids : Nat → String) (syllabusText : String) :
    Except String ProcessedSyllabus :=
  match oracle primaryModel (createExtractionPrompt syllabusText) with
  | .failure msg => .error msg
  | .success none => .error "No response from OpenAI"
  | .success (some (.error _)) => .error "Invalid JSON response from AI model"
  | .success (some (.ok parsed)) => validateAndCleanResult ids parsed

/-- Model of `extractEvents` (entry point): the primary attempt with the
surrounding `try`/`catch` that wraps every error as
`Failed to process syllabus: ...`. -/
def extractEvents (oracle : ChatOracle) (ids : Nat → String) (syllabusText : String) :
    Except String ProcessedSyllabus :=
  match primaryAttempt oracle ids syllabusText with
  | .ok r => .ok r
  | .error msg => .error ("Failed to process syllabus: " ++ msg)

/-- Model of the fallback body in `extractEventsWithFallback`: one call to the
secondary model with the same prompt.  Unlike `extractEvents`, the
`JSON.parse` error is not caught and rewritten here, and no
`Failed to process syllabus` wrapping occurs: any error propagates to the
fallback `catch`. -/
def fallbackAttempt (oracle : ChatOracle) (ids : Nat → String) (syllabusText : String) :
    Except String ProcessedSyllabus :=
  match oracle fallbackModel (createExtractionPrompt syllabusText) with
  | .failure msg => .error msg
  | .success none => .error "No response from OpenAI"
  | .success (some (.error msg)) => .error msg
  | .success (some (.ok parsed)) => validateAndCleanResult ids parsed

/-- The fixed message of the terminal error thrown when the fallback attempt
also fails (the spec's `ExtractionFailed`). -/
def extractionFailedMsg : String :=
  "AI processing failed. Please try again or check your syllabus format."

deriving instance DecidableEq for Except

/-- Observable outcome of one `extractEventsWithFallback` run: the returned
value or thrown error, the `(model, prompt)` of each chat API call in order,
and the `(label, error)` pairs passed to `console.warn` / `console.error` by
the fallback wrapper. -/
structure FallbackRun where
  result : Except String ProcessedSyllabus
  calls : List (String × String)
  warnings : List (String × String)
deriving DecidableEq

/-- Model of `extractEventsWithFallback`: try `extractEvents`; on any error,
warn and run exactly one fallback attempt with the secondary model and the
identical prompt; if that also fails, log the fallback's error and throw the
fixed `extractionFailedMsg`. -/
def extractEventsWithFallback (oracle : ChatOracle) (ids : Nat → String)
    (syllabusText : String) : FallbackRun :=
  match extractEvents oracle ids syllabusText with
  | .ok r =>
    { result := .ok r
      calls := [(primaryModel, createExtractionPrompt syllabusText)]
      warnings := [] }
  | .error e =>
    match fallbackAttempt oracle ids syllabusText with
    | .ok r =>
      { result := .ok r
        calls := [(primaryModel, createExtractionPrompt syllabusText),
                  (fallbackModel, createExtractionPrompt syllabusText)]
        warnings := [("GPT-4 failed, trying GPT-3.5-turbo:", e)] }
    | .error fe =>
      { result := .error extractionFailedMsg
        calls := [(primaryModel, createExtractionPrompt syllabusText),
                  (fallbackModel, createExtractionPrompt syllabusText)]
        warnings := [("GPT-4 failed, trying GPT-3.5-turbo:", e),
                     ("Both GPT-4 and GPT-3.5-turbo failed:", fe)] }

/-! ## PDF processing (pdf-parser.ts)

The external `pdf-parse` library call is modelled as part of the input: a
`PDFBuffer` carries the decoded 4-byte header and the outcome the library
would produce on the buffer. -/

/-- Result shape of a successful `pdf-parse` call (the unused `info` and
`metadata` fields are omitted). -/
structure PDFParseResult where
  text : String
  numpages : Nat
deriving Repr, DecidableEq

/-- A binary PDF buffer, abstracted by what the pipeline observes of it:
`buffer.slice(0, 4).toString()` and the outcome of `pdf-parse(buffer)`. -/
structure PDFBuffer where
  header : String
  parse : Except String PDFParseResult

/-- Model of `PDFProcessor.extractText`: a library failure is rethrown as
`Failed to parse PDF: ...`. -/
def extractText (b : PDFBuffer) : Except String PDFParseResult :=
  match b.parse with
  | .ok d => .ok d
  | .error e => .error ("Failed to parse PDF: " ++ e)

/-- Model of `PDFProcessor.validatePDFBuffer`: the 4-byte magic-number check. -/
def validatePDFBuffer (b : PDFBuffer) : Bool :=
  b.header = "%PDF"

/-- Model of `PDFProcessor.isScannedPDF`: any extraction failure counts as
scanned; otherwise the document is scanned when the average extractable text
per page is below 100 characters.  `textLength / numpages < 100` on JS floats
(including the `numpages = 0` cases, where the quotient is `NaN` or
`Infinity`) holds exactly when `textLength < 100 * numpages` on naturals. -/
def isScannedPDF (b : PDFBuffer) : Bool :=
  match extractText b with
  | .error _ => true
  | .ok result => (jsTrim result.text).length < 100 * result.numpages

/-- The scanned-document error message (the spec's
`UnsupportedScannedDocument`). -/
def scannedMsg : String :=
  "Scanned PDFs are not currently supported. Please provide a text-based PDF."

/-- The punctuation class `[.,;:!?]` of the spacing rules in `cleanText`. -/
def isPunct (c : Char) : Bool :=
  c = '.' || c = ',' || c = ';' || c = ':' || c = '!' || c = '?'

/-- Step `replace(/\s+/g, " ")` of `cleanText`: every maximal run of JS
whitespace becomes a single space. -/
def collapseWs : List Char → List Char
  | [] => []
  | [c] => if isJsWs c then [' '] else [c]
  | c1 :: c2 :: rest =>
    if isJsWs c1 then
      if isJsWs c2 then collapseWs (c2 :: rest)
      else ' ' :: collapseWs (c2 :: rest)
    else c1 :: collapseWs (c2 :: rest)

/-- Step `replace(/[\f\r]/g, " ")` of `cleanText` (a per-character class). -/
def mapFormFeed (c : Char) : Char :=
  if c = '\x0c' || c = '\r' then ' ' else c

/-- Step `replace(/[•·‣⁃]/g, "-")` of `cleanText`: bullet glyphs become a
dash. -/
def bulletDash (c : Char) : Char :=
  if c = '•' || c = '·' || c = '‣' || c = '⁃' then '-' else c

/-- Step `replace(/[""]/g, "\"")` of `cleanText`.  In the source file the
character class consists of two literal ASCII double quotes (not curly
quotes), so the step replaces `"` by `"` and is the identity map. -/
def straightDQ (c : Char) : Char :=
  if c = '"' then '"' else c

/-- Step `replace(/['']/g, "'")` of `cleanText`.  As with `straightDQ`, the
class in the source holds two literal ASCII apostrophes, so the step is the
identity map. -/
def straightSQ (c : Char) : Char :=
  if c = '\'' then '\'' else c

/-- Worker for the step `replace(/\s+([.,;:!?])/g, "$1")` of `cleanText`.
`run` holds the pending whitespace run in reverse: when the run is followed
by a punctuation character it is deleted, otherwise it is emitted; the regex
scan resumes after a matched punctuation character. -/
def stripWsPunct (run : List Char) : List Char → List Char
  | [] => run.reverse
  | c :: cs =>
    if isJsWs c then stripWsPunct (c :: run) cs
    else if isPunct c && !run.isEmpty then c :: stripWsPunct [] cs
    else run.reverse ++ c :: stripWsPunct [] cs

/-- Step `replace(/([.,;:!?])([^\s])/g, "$1 $2")` of `cleanText`: a space is
inserted between a punctuation character and a following non-whitespace
character; the global regex scan resumes after both matched characters. -/
def spacePunct : List Char → List Char
  | [] => []
  | [c] => [c]
  | p :: c :: rest =>
    if isPunct p && !isJsWs c then p :: ' ' :: c :: spacePunct rest
    else p :: spacePunct (c :: rest)

/-- The character-list form of `PDFProcessor.cleanText`: the seven `replace`
steps followed by `trim`, in source order. -/
def cleanTextL (l : List Char) : List Char :=
  jsTrimL (spacePunct (stripWsPunct []
    ((((collapseWs l).map mapFormFeed).map bulletDash).map straightDQ |>.map straightSQ)))

/-- Model of `PDFProcessor.cleanText`. -/
def cleanText (s : String) : String := ⟨cleanTextL s.data⟩

/-- Model of `PDFProcessor.processForAI`: signature check, scanned-document
check, extraction, cleaning, minimum-content check. -/
def processForAI (b : PDFBuffer) : Except String String :=
  if !validatePDFBuffer b then .error "Invalid PDF file format"
  else if isScannedPDF b then .error scannedMsg
  else
    match extractText b with
    | .error e => .error e
    | .ok result =>
      let cleanedText := cleanText result.text
      if cleanedText.length < 50 then .error "PDF appears to contain very little text content"
      else .ok cleanedText

/-! ## Normalizer invariants

Predicates characterizing the image of `cleanText`'s stages, used by the
idempotence proof. -/

/-- Every whitespace character of the list is a plain space. -/
def wsOnlySpace (l : List Char) : Prop := ∀ c ∈ l, isJsWs c = true → c = ' '

/-- No two adjacent whitespace characters. -/
def noDbl : List Char → Prop
  | a :: b :: t => ¬(isJsWs a = true ∧ isJsWs b = true) ∧ noDbl (b :: t)
  | _ => True

/-- No whitespace character immediately followed by a punctuation character. -/
def noWsPunct : List Char → Prop
  | a :: b :: t => ¬(isJsWs a = true ∧ isPunct b = true) ∧ noWsPunct (b :: t)
  | _ => True

/-- Every character of the list is fixed by the bullet replacement. -/
def bulletFixed (l : List Char) : Prop := ∀ c ∈ l, bulletDash c = c

/-! ## Concrete fixtures used by witnesses and counterexamples -/

/-- An id supply standing for the impure `generateEventId`. -/
def ids0 : Nat → String := fun k => "event-" ++ toString k

/-- The valid candidate of the spec's example reply. -/
def evA : JValue := .jobj [("title", .jstr "A"), ("date", .jstr "2024-09-15")]

/-- The empty-title candidate of the spec's example reply. -/
def evEmptyTitle : JValue := .jobj [("title", .jstr ""), ("date", .jstr "2024-09-16")]

/-- The bad-date candidate of the spec's example reply. -/
def evBadDate : JValue := .jobj [("title", .jstr "B"), ("date", .jstr "not-a-date")]

/-- The spec's example reply object. -/
def exampleReply : List (String × JValue) :=
  [("events", .jarr [evA, evEmptyTitle, evBadDate])]

/-- A valid candidate whose `time` and `location` are whitespace-only. -/
def evWsTime : JValue :=
  .jobj [("title", .jstr "A"), ("date", .jstr "2024-09-15"),
         ("time", .jstr "   "), ("location", .jstr " ")]

/-- Oracle: both models throw; the causes differ between the attempts. -/
def oracleFailA : ChatOracle := fun model _ =>
  if model = primaryModel then .failure "boom-primary" else .failure "boom-fallback-one"

/-- Oracle: like `oracleFailA` but with a different fallback cause. -/
def oracleFailB : ChatOracle := fun model _ =>
  if model = primaryModel then .failure "boom-primary" else .failure "boom-fallback-two"

/-- Oracle: the primary model replies with content that is not parsable JSON;
the fallback replies with a well-formed object containing one valid event. -/
def oracleBadJson : ChatOracle := fun model _ =>
  if model = primaryModel then .success (some (.error "Unexpected token N in JSON at position 0"))
  else .success (some (.ok (.jobj [("events", .jarr [evA])])))

/-- A text-bearing PDF whose only page holds fewer than 100 characters. -/
def pdfShort : PDFBuffer :=
  { header := "%PDF", parse := .ok { text := "short text", numpages := 1 } }

/-- A PDF with the right signature on which `pdf-parse` throws. -/
def pdfBroken : PDFBuffer :=
  { header := "%PDF", parse := .error "bad xref entry" }

/-! ## Validator lemmas -/

/-- On a candidate accepted by `isValidEvent`, `validateDate` cannot throw and
`buildEvent` succeeds with the cleaned event. -/
theorem buildEvent_valid (id : String) (e : JValue) (h : isValidEvent e = true) :
    buildEvent id e = .ok (mkCleanEvent id e) := by
  unfold isValidEvent at h
  simp only [Bool.and_eq_true] at h
  obtain ⟨-, hd⟩ := h
  unfold buildEvent mkCleanEvent
  split at hd
  next d heq => simp [validateDate, hd, heq, jStringO, jToString]
  next => simp at hd

/-- The validation loop never fails: it returns exactly the valid candidates,
in order, cleaned. -/
theorem cleanEvents_ok (ids : Nat → String) : ∀ (cs : List JValue) (k : Nat),
    cleanEvents ids k cs = .ok (keptEvents ids k cs)
  | [], _ => rfl
  | e :: rest, k => by
    by_cases h : isValidEvent e = true
    · simp [cleanEvents, keptEvents, h, buildEvent_valid _ _ h, cleanEvents_ok ids rest (k + 1)]
    · simp [cleanEvents, keptEvents, h, cleanEvents_ok ids rest k]

/-- The titles of the kept events are the trimmed titles of exactly the
candidates passing `isValidEvent`, in order. -/
theorem keptEvents_titles (ids : Nat → String) : ∀ (cs : List JValue) (k : Nat),
    (keptEvents ids k cs).map (fun ev => ev.title) =
      (cs.filter (fun e => isValidEvent e)).map (fun e => jsTrim (jStringO (jGet e "title")))
  | [], _ => rfl
  | e :: rest, k => by
    by_cases h : isValidEvent e = true
    · simp [keptEvents, h, mkCleanEvent, keptEvents_titles ids rest (k + 1)]
    · simp [keptEvents, h, keptEvents_titles ids rest k]

/-- C1: for every parsed reply object whose `events` field is an array, the
validator succeeds (it does not fail the whole request when some candidates
are invalid) and its event list consists of exactly the valid candidates —
those with a non-empty trimmed string `title` and a string `date` of shape
`YYYY-MM-DD` naming a real calendar date — in order, cleaned. -/
theorem claim1_validator_drops_invalid (ids : Nat → String)
    (fs : List (String × JValue)) (cs : List JValue)
    (h : jGet (.jobj fs) "events" = some (.jarr cs)) :
    ∃ ps, validateAndCleanResult ids (.jobj fs) = .ok ps ∧
      ps.events = keptEvents ids 0 cs ∧
      ps.events.map (fun ev => ev.title) =
        (cs.filter (fun e => isValidEvent e)).map
          (fun e => jsTrim (jStringO (jGet e "title"))) := by
  refine ⟨{ events := keptEvents ids 0 cs
            courseName := optStrField (.jobj fs) "courseName"
            instructor := optStrField (.jobj fs) "instructor"
            semester := optStrField (.jobj fs) "semester"
            year := if jTruthyO (jGet (.jobj fs) "year")
                    then jsToNumber ((jGet (.jobj fs) "year").getD .jnull) else none },
         ?_, rfl, keptEvents_titles ids cs 0⟩
  simp [validateAndCleanResult, jTruthy, jsTypeofObject, eventsField, h, cleanEvents_ok]

/-- Witness for C1 at the spec's example reply: the result holds exactly one
event, the one titled `A`. -/
theorem claim1_validator_drops_invalid_witness :
    (∃ ps, validateAndCleanResult ids0 (.jobj exampleReply) = .ok ps ∧
      ps.events = keptEvents ids0 0 [evA, evEmptyTitle, evBadDate] ∧
      ps.events.map (fun ev => ev.title) =
        ([evA, evEmptyTitle, evBadDate].filter (fun e => isValidEvent e)).map
          (fun e => jsTrim (jStringO (jGet e "title")))) ∧
    keptEvents ids0 0 [evA, evEmptyTitle, evBadDate] =
      [{ id := "event-0", title := "A", description := "", date := "2024-09-15",
         time := none, type := "other", priority := "medium", location := none }] :=
  ⟨claim1_validator_drops_invalid ids0 exampleReply [evA, evEmptyTitle, evBadDate] rfl,
   by decide⟩

/-! ## Fallback-flow claims -/

/-- Counterexample to C2 as stated: when both attempts fail, the surfaced
error is the fixed message `extractionFailedMsg`; it does not wrap the
fallback attempt's underlying cause — two runs whose fallback causes differ
surface the identical error, and the surfaced text does not contain the
cause. -/
theorem claim2_counterexample :
    (extractEventsWithFallback oracleFailA ids0 "syllabus").result =
      .error extractionFailedMsg ∧
    (extractEventsWithFallback oracleFailB ids0 "syllabus").result =
      .error extractionFailedMsg ∧
    (extractEventsWithFallback oracleFailA ids0 "syllabus").result =
      (extractEventsWithFallback oracleFailB ids0 "syllabus").result ∧
    ¬ ("boom-fallback-one".data <:+: extractionFailedMsg.data) :=
  ⟨rfl, rfl, rfl, by set_option maxRecDepth 20000 in decide⟩

/-- C2 (amended): primary failure triggers exactly one fallback attempt, with
the secondary model and the identical prompt text; if the fallback also
fails, the surfaced error is the fixed `ExtractionFailed` message (which
wraps neither cause), and the fallback attempt's cause — not the primary's —
is what reaches the terminal diagnostic log. -/
theorem claim2_single_fallback_fixed_error (oracle : ChatOracle) (ids : Nat → String)
    (syllabusText : String) (e : String)
    (hp : extractEvents oracle ids syllabusText = .error e) :
    (extractEventsWithFallback oracle ids syllabusText).calls =
      [(primaryModel, createExtractionPrompt syllabusText),
       (fallbackModel, createExtractionPrompt syllabusText)] ∧
    ∀ fe, fallbackAttempt oracle ids syllabusText = .error fe →
      (extractEventsWithFallback oracle ids syllabusText).result =
        .error extractionFailedMsg ∧
      (extractEventsWithFallback oracle ids syllabusText).warnings =
        [("GPT-4 failed, trying GPT-3.5-turbo:", e),
         ("Both GPT-4 and GPT-3.5-turbo failed:", fe)] := by
  constructor
  · unfold extractEventsWithFallback
    rw [hp]
    cases hfb : fallbackAttempt oracle ids syllabusText <;> simp
  · intro fe hfe
    unfold extractEventsWithFallback
    rw [hp, hfe]
    exact ⟨rfl, rfl⟩

/-- Witness for C2 (amended) on a run where the primary throws
`boom-primary` and the fallback throws `boom-fallback-one`. -/
theorem claim2_single_fallback_fixed_error_witness :
    (extractEventsWithFallback oracleFailA ids0 "syllabus").calls =
      [(primaryModel, createExtractionPrompt "syllabus"),
       (fallbackModel, createExtractionPrompt "syllabus")] ∧
    (extractEventsWithFallback oracleFailA ids0 "syllabus").result =
      .error extractionFailedMsg ∧
    (extractEventsWithFallback oracleFailA ids0 "syllabus").warnings =
      [("GPT-4 failed, trying GPT-3.5-turbo:", "Failed to process syllabus: boom-primary"),
       ("Both GPT-4 and GPT-3.5-turbo failed:", "boom-fallback-one")] := by
  obtain ⟨h1, h2⟩ :=
    claim2_single_fallback_fixed_error oracleFailA ids0 "syllabus"
      "Failed to process syllabus: boom-primary" rfl
  exact ⟨h1, h2 "boom-fallback-one" rfl⟩

/-- C8: a primary reply that is received but not parsable as JSON, or parses
but fails object validation, still transitions to the fallback attempt; such
a run is terminal only when the fallback attempt also fails. -/
theorem claim8_malformed_primary_still_falls_back (oracle : ChatOracle)
    (ids : Nat → String) (syllabusText : String)
    (h : (∃ m, oracle primaryModel (createExtractionPrompt syllabusText) =
            .success (some (.error m))) ∨
         (∃ v vm, oracle primaryModel (createExtractionPrompt syllabusText) =
            .success (some (.ok v)) ∧ validateAndCleanResult ids v = .error vm)) :
    (extractEventsWithFallback oracle ids syllabusText).calls =
      [(primaryModel, createExtractionPrompt syllabusText),
       (fallbackModel, createExtractionPrompt syllabusText)] ∧
    (∀ r, fallbackAttempt oracle ids syllabusText = .ok r →
      (extractEventsWithFallback oracle ids syllabusText).result = .ok r) ∧
    (∀ fe, fallbackAttempt oracle ids syllabusText = .error fe →
      (extractEventsWithFallback oracle ids syllabusText).result =
        .error extractionFailedMsg) := by
  have hp : ∃ e, extractEvents oracle ids syllabusText = .error e := by
    rcases h with ⟨m, hm⟩ | ⟨v, vm, hv, hval⟩
    · refine ⟨"Failed to process syllabus: Invalid JSON response from AI model", ?_⟩
      unfold extractEvents primaryAttempt
      rw [hm]
      rfl
    · refine ⟨"Failed to process syllabus: " ++ vm, ?_⟩
      unfold extractEvents primaryAttempt
      rw [hv]
      simp [hval]
  obtain ⟨e, he⟩ := hp
  refine ⟨?_, ?_, ?_⟩
  · unfold extractEventsWithFallback
    rw [he]
    cases hfb : fallbackAttempt oracle ids syllabusText <;> simp
  · intro r hr
    unfold extractEventsWithFallback
    rw [he, hr]
  · intro fe hfe
    unfold extractEventsWithFallback
    rw [he, hfe]

/-- Witness for C8: the primary replies with unparseable content, the
fallback replies with a well-formed object, and the run succeeds with that
object's single valid event. -/
theorem claim8_malformed_primary_still_falls_back_witness :
    (extractEventsWithFallback oracleBadJson ids0 "syllabus").calls =
      [(primaryModel, createExtractionPrompt "syllabus"),
       (fallbackModel, createExtractionPrompt "syllabus")] ∧
    (extractEventsWithFallback oracleBadJson ids0 "syllabus").result =
      .ok { events := [{ id := "event-0", title := "A", description := "",
                         date := "2024-09-15", time := none, type := "other",
                         priority := "medium", location := none }],
            courseName := none, instructor := none, semester := none, year := none } := by
  obtain ⟨h1, h2, -⟩ :=
    claim8_malformed_primary_still_falls_back oracleBadJson ids0 "syllabus"
      (Or.inl ⟨"Unexpected token N in JSON at position 0", rfl⟩)
  exact ⟨h1, h2 _ rfl⟩

/-! ## Prompt-builder claims -/

/-- Counterexample to C4 as stated: the prompt built for the syllabus text
`SYLLABUS` does not end with that text — the fixed closing line follows it. -/
theorem claim4_counterexample :
    ¬ ("SYLLABUS".data <:+ (createExtractionPrompt "SYLLABUS").data) := by
  rintro ⟨t, ht⟩
  have h1 : (createExtractionPrompt "SYLLABUS").data.getLast? = some 'S' := by
    rw [← ht, List.getLast?_append_of_ne_nil t (by decide)]
    rfl
  have h2 : (createExtractionPrompt "SYLLABUS").data.getLast? = some '.' := by
    show ((promptPrefix ++ "SYLLABUS").data ++ promptSuffix.data).getLast? = some '.'
    rw [List.getLast?_append_of_ne_nil _ (by decide)]
    rfl
  rw [h1] at h2
  simp at h2

/-- C4 (amended): the prompt builder is pure template substitution — the
syllabus text is embedded character-for-character between the fixed
instruction prefix and the fixed closing line, so the prompt ends with the
closing line `Return only valid JSON, no additional text or explanations.`
(and hence with `.`), not with the syllabus text. -/
theorem claim4_prompt_embeds_text (syllabusText : String) :
    createExtractionPrompt syllabusText = promptPrefix ++ syllabusText ++ promptSuffix ∧
    promptSuffix.data <:+ (createExtractionPrompt syllabusText).data ∧
    (createExtractionPrompt syllabusText).data.getLast? = some '.' := by
  refine ⟨rfl, ⟨(promptPrefix ++ syllabusText).data, rfl⟩, ?_⟩
  show ((promptPrefix ++ syllabusText).data ++ promptSuffix.data).getLast? = some '.'
  rw [List.getLast?_append_of_ne_nil _ (by decide)]
  rfl

/-! ## Optional-field and coercion claims -/

/-- Counterexample to C5 as stated: a whitespace-only `time` (or `location`)
value is truthy, so the constructed event carries the field present with the
empty-string value — not absent. -/
theorem claim5_counterexample :
    validateAndCleanResult ids0 (.jobj [("events", .jarr [evWsTime])]) =
      .ok { events := [{ id := "event-0", title := "A", description := "",
                         date := "2024-09-15", time := some "", type := "other",
                         priority := "medium", location := some "" }],
            courseName := none, instructor := none, semester := none, year := none } ∧
    (some "" : Option String) ≠ none :=
  ⟨rfl, by decide⟩

/-- C5 (amended): for every valid candidate, the constructed event carries
`time` / `location` exactly when the raw value is truthy (for a string:
non-empty before trimming), with the trimmed string as value.  A
whitespace-only string therefore yields the field present with value `""`;
an empty-string or absent raw value yields an absent field. -/
theorem claim5_time_location_truthiness (ids : Nat → String)
    (fs : List (String × JValue)) (e : JValue)
    (hev : jGet (.jobj fs) "events" = some (.jarr [e]))
    (hval : isValidEvent e = true) :
    ∃ ps, validateAndCleanResult ids (.jobj fs) = .ok ps ∧
      ps.events = [mkCleanEvent (ids 0) e] ∧
      (mkCleanEvent (ids 0) e).time =
        (if jTruthyO (jGet e "time") then some (jsTrim (jStringO (jGet e "time"))) else none) ∧
      (∀ s, jGet e "time" = some (.jstr s) →
        (mkCleanEvent (ids 0) e).time = if s = "" then none else some (jsTrim s)) ∧
      (jGet e "time" = none → (mkCleanEvent (ids 0) e).time = none) ∧
      (∀ s, jGet e "location" = some (.jstr s) →
        (mkCleanEvent (ids 0) e).location = if s = "" then none else some (jsTrim s)) ∧
      (jGet e "location" = none → (mkCleanEvent (ids 0) e).location = none) := by
  refine ⟨{ events := keptEvents ids 0 [e]
            courseName := optStrField (.jobj fs) "courseName"
            instructor := optStrField (.jobj fs) "instructor"
            semester := optStrField (.jobj fs) "semester"
            year := if jTruthyO (jGet (.jobj fs) "year")
                    then jsToNumber ((jGet (.jobj fs) "year").getD .jnull) else none },
         ?_, ?_, rfl, ?_, ?_, ?_, ?_⟩
  · simp [validateAndCleanResult, jTruthy, jsTypeofObject, eventsField, hev, cleanEvents_ok]
  · simp [keptEvents, hval]
  · intro s hs
    by_cases h0 : s = ""
    · subst h0
      simp only [mkCleanEvent, hs, jTruthyO, jTruthy, String.isEmpty]
      decide
    · simp [mkCleanEvent, hs, jTruthyO, jTruthy, jStringO, jToString,
            String.isEmpty_iff, h0]
  · intro h
    simp [mkCleanEvent, h, jTruthyO]
  · intro s hs
    by_cases h0 : s = ""
    · subst h0
      simp only [mkCleanEvent, hs, jTruthyO, jTruthy, String.isEmpty]
      decide
    · simp [mkCleanEvent, hs, jTruthyO, jTruthy, jStringO, jToString,
            String.isEmpty_iff, h0]
  · intro h
    simp [mkCleanEvent, h, jTruthyO]

/-- Witness for C5 (amended) at the whitespace-only `time` / `location`
candidate `evWsTime`. -/
theorem claim5_time_location_truthiness_witness :
    ∃ ps, validateAndCleanResult ids0 (.jobj [("events", .jarr [evWsTime])]) = .ok ps ∧
      ps.events = [mkCleanEvent (ids0 0) evWsTime] ∧
      (mkCleanEvent (ids0 0) evWsTime).time =
        (if jTruthyO (jGet evWsTime "time")
         then some (jsTrim (jStringO (jGet evWsTime "time"))) else none) ∧
      (∀ s, jGet evWsTime "time" = some (.jstr s) →
        (mkCleanEvent (ids0 0) evWsTime).time = if s = "" then none else some (jsTrim s)) ∧
      (jGet evWsTime "time" = none → (mkCleanEvent (ids0 0) evWsTime).time = none) ∧
      (∀ s, jGet evWsTime "location" = some (.jstr s) →
        (mkCleanEvent (ids0 0) evWsTime).location = if s = "" then none else some (jsTrim s)) ∧
      (jGet evWsTime "location" = none → (mkCleanEvent (ids0 0) evWsTime).location = none) :=
  claim5_time_location_truthiness ids0 [("events", .jarr [evWsTime])] evWsTime rfl (by decide)

/-- Unfolding of `validateEventType` as a propositional `if`. -/
theorem validateEventType_eq (v : Option JValue) :
    validateEventType v =
      if validTypes.contains (jsToLower (jStringO v)) = true
      then jsToLower (jStringO v) else "other" := rfl

/-- Unfolding of `validatePriority` as a propositional `if`. -/
theorem validatePriority_eq (v : Option JValue) :
    validatePriority v =
      if validPriorities.contains (jsToLower (jStringO v)) = true
      then jsToLower (jStringO v) else "medium" := rfl

/-- C6: the validator coerces `type` into the closed set
`assignment | exam | reading | lecture | project | quiz | other`, mapping any
unrecognized or missing value to `other`, and coerces `priority` into
`high | medium | low`, mapping any unrecognized or missing value to
`medium`. -/
theorem claim6_type_priority_coercion (v : Option JValue) :
    validTypes.contains (validateEventType v) = true ∧
    (validTypes.contains (jsToLower (jStringO v)) = false → validateEventType v = "other") ∧
    validPriorities.contains (validatePriority v) = true ∧
    (validPriorities.contains (jsToLower (jStringO v)) = false →
      validatePriority v = "medium") := by
  refine ⟨?_, ?_, ?_, ?_⟩
  · rw [validateEventType_eq]
    by_cases h : validTypes.contains (jsToLower (jStringO v)) = true
    · rw [if_pos h]
      exact h
    · rw [if_neg h]
      decide
  · intro h
    rw [validateEventType_eq, if_neg (by rw [h]; decide)]
  · rw [validatePriority_eq]
    by_cases h : validPriorities.contains (jsToLower (jStringO v)) = true
    · rw [if_pos h]
      exact h
    · rw [if_neg h]
      decide
  · intro h
    rw [validatePriority_eq, if_neg (by rw [h]; decide)]

/-- Witness for C6 at the spec's examples: `seminar` coerces to `other` and
`urgent` coerces to `medium`. -/
theorem claim6_type_priority_coercion_witness :
    validateEventType (some (.jstr "seminar")) = "other" ∧
    validatePriority (some (.jstr "urgent")) = "medium" ∧
    validTypes.contains (validateEventType (some (.jstr "seminar"))) = true :=
  ⟨(claim6_type_priority_coercion (some (.jstr "seminar"))).2.1 (by decide),
   (claim6_type_priority_coercion (some (.jstr "urgent"))).2.2.2 (by decide),
   (claim6_type_priority_coercion (some (.jstr "seminar"))).1⟩

/-- C9: the coercion is case-insensitive — whenever the lowercased `type`
(resp. `priority`) string lies in the valid set, the validator keeps the
lowercased value instead of coercing it to `other` (resp. `medium`). -/
theorem claim9_case_insensitive_coercion (v : Option JValue) :
    (validTypes.contains (jsToLower (jStringO v)) = true →
      validateEventType v = jsToLower (jStringO v)) ∧
    (validPriorities.contains (jsToLower (jStringO v)) = true →
      validatePriority v = jsToLower (jStringO v)) := by
  constructor
  · intro h
    rw [validateEventType_eq, if_pos h]
  · intro h
    rw [validatePriority_eq, if_pos h]

/-- Witness for C9: `EXAM` is kept as `exam` and `High` as `high`. -/
theorem claim9_case_insensitive_coercion_witness :
    validateEventType (some (.jstr "EXAM")) = "exam" ∧
    validatePriority (some (.jstr "High")) = "high" :=
  ⟨((claim9_case_insensitive_coercion (some (.jstr "EXAM"))).1 (by decide)).trans rfl,
   ((claim9_case_insensitive_coercion (some (.jstr "High"))).2 (by decide)).trans rfl⟩

/-! ## PDF-pipeline claims -/

/-- C7: for a well-signed document whose text extraction succeeds,
`processForAI` fails with the scanned-document error exactly when the average
extractable-text length per page is strictly below 100 characters; with at
least 100 characters per page the scanned check never triggers. -/
theorem claim7_scanned_threshold (b : PDFBuffer) (r : PDFParseResult)
    (hh : b.header = "%PDF") (hp : b.parse = .ok r) :
    (processForAI b = .error scannedMsg ↔ (jsTrim r.text).length < 100 * r.numpages) ∧
    (100 * r.numpages ≤ (jsTrim r.text).length → isScannedPDF b = false) := by
  have hext : extractText b = .ok r := by unfold extractText; rw [hp]
  have hscan : isScannedPDF b = decide ((jsTrim r.text).length < 100 * r.numpages) := by
    unfold isScannedPDF
    rw [hext]
  constructor
  · constructor
    · intro h
      by_contra hlt
      have hsc : isScannedPDF b = false := by
        rw [hscan]
        simpa using hlt
      have hrun : processForAI b =
          (if (cleanText r.text).length < 50
           then .error "PDF appears to contain very little text content"
           else .ok (cleanText r.text)) := by
        unfold processForAI
        rw [hsc, hext]
        simp [validatePDFBuffer, hh]
      rw [hrun] at h
      split at h
      · exact absurd h (by decide)
      · exact Except.noConfusion h
    · intro hlt
      have hsc : isScannedPDF b = true := by
        rw [hscan]
        simpa using hlt
      unfold processForAI
      rw [hsc]
      simp [validatePDFBuffer, hh]
  · intro hge
    rw [hscan]
    simp
    omega

/-- Witness for C7 at a one-page document with 10 characters of text. -/
theorem claim7_scanned_threshold_witness :
    processForAI pdfShort = .error scannedMsg :=
  ((claim7_scanned_threshold pdfShort { text := "short text", numpages := 1 }
      rfl rfl).1).mpr (by decide)

/-- C10: a buffer bearing the `%PDF` signature on which text extraction
throws fails with the scanned-document error, not with the parse-failure
error, because `isScannedPDF` classifies any extraction failure as scanned. -/
theorem claim10_extract_error_reported_scanned (b : PDFBuffer) (e : String)
    (hh : b.header = "%PDF") (hp : b.parse = .error e) :
    processForAI b = .error scannedMsg := by
  have hsc : isScannedPDF b = true := by
    unfold isScannedPDF extractText
    rw [hp]
  unfold processForAI
  rw [hsc]
  simp [validatePDFBuffer, hh]

/-- Witness for C10 at a signed buffer whose extraction throws. -/
theorem claim10_extract_error_reported_scanned_witness :
    processForAI pdfBroken = .error scannedMsg :=
  claim10_extract_error_reported_scanned pdfBroken "bad xref entry" rfl rfl

/-! ## Normalizer lemmas: character maps -/

/-- The double-quote step is the identity map. -/
theorem straightDQ_id (c : Char) : straightDQ c = c := by
  unfold straightDQ
  split
  next h => exact h.symm
  next => rfl

/-- The single-quote step is the identity map. -/
theorem straightSQ_id (c : Char) : straightSQ c = c := by
  unfold straightSQ
  split
  next h => exact h.symm
  next => rfl

theorem map_straightDQ_id (l : List Char) : l.map straightDQ = l := by
  induction l with
  | nil => rfl
  | cons c t ih => simp [straightDQ_id, ih]

theorem map_straightSQ_id (l : List Char) : l.map straightSQ = l := by
  induction l with
  | nil => rfl
  | cons c t ih => simp [straightSQ_id, ih]

/-- Punctuation characters are not whitespace. -/
theorem punct_not_ws {c : Char} (h : isPunct c = true) : isJsWs c = false := by
  unfold isPunct at h
  simp only [Bool.or_eq_true, decide_eq_true_eq] at h
  rcases h with ((((h | h) | h) | h) | h) | h <;> subst h <;> decide

/-- The bullet replacement preserves whitespace status. -/
theorem bulletDash_ws (c : Char) : isJsWs (bulletDash c) = isJsWs c := by
  unfold bulletDash
  split
  next h =>
    simp only [Bool.or_eq_true, decide_eq_true_eq] at h
    rcases h with ((h | h) | h) | h <;> subst h <;> decide
  next => rfl

/-- The bullet replacement is idempotent on characters. -/
theorem bulletDash_fix (c : Char) : bulletDash (bulletDash c) = bulletDash c := by
  by_cases h : (c = '•' || c = '·' || c = '‣' || c = '⁃') = true
  · have h1 : bulletDash c = '-' := by unfold bulletDash; rw [if_pos h]
    rw [h1]
    decide
  · have h1 : bulletDash c = c := by unfold bulletDash; rw [if_neg h]
    rw [h1, h1]

/-- On a character that is either non-whitespace or a plain space, the
form-feed step is the identity. -/
theorem mapFormFeed_id (c : Char) (h : isJsWs c = true → c = ' ') : mapFormFeed c = c := by
  unfold mapFormFeed
  split
  next hc =>
    simp only [Bool.or_eq_true, decide_eq_true_eq] at hc
    rcases hc with h1 | h1 <;> subst h1 <;> exact absurd (h (by decide)) (by decide)
  next => rfl

theorem map_mapFormFeed_id (l : List Char) (h : wsOnlySpace l) : l.map mapFormFeed = l := by
  induction l with
  | nil => rfl
  | cons c t ih =>
    obtain ⟨hc, ht⟩ := List.forall_mem_cons.mp h
    simp [mapFormFeed_id c hc, ih ht]

/-! ## Normalizer lemmas: invariant plumbing -/

theorem wsOnlySpace_cons {c : Char} {t : List Char} :
    wsOnlySpace (c :: t) ↔ (isJsWs c = true → c = ' ') ∧ wsOnlySpace t :=
  List.forall_mem_cons

theorem noDbl_tail {a : Char} {l : List Char} (h : noDbl (a :: l)) : noDbl l := by
  cases l with
  | nil => trivial
  | cons b t => exact h.2

theorem noDbl_cons_nonws {a : Char} {l : List Char} (h : isJsWs a = false) (hl : noDbl l) :
    noDbl (a :: l) := by
  cases l with
  | nil => trivial
  | cons b t => exact ⟨fun hc => absurd hc.1 (by simp [h]), hl⟩

theorem noDbl_cons_head {a : Char} {l : List Char}
    (h : ∀ b, l.head? = some b → isJsWs b = false) (hl : noDbl l) : noDbl (a :: l) := by
  cases l with
  | nil => trivial
  | cons b t => exact ⟨fun hc => absurd hc.2 (by simp [h b rfl]), hl⟩

theorem noDbl_pair {a b : Char} {l : List Char} (h : noDbl (a :: b :: l)) :
    ¬(isJsWs a = true ∧ isJsWs b = true) := h.1

theorem noWsPunct_tail {a : Char} {l : List Char} (h : noWsPunct (a :: l)) : noWsPunct l := by
  cases l with
  | nil => trivial
  | cons b t => exact h.2

theorem noWsPunct_cons_nonws {a : Char} {l : List Char} (h : isJsWs a = false)
    (hl : noWsPunct l) : noWsPunct (a :: l) := by
  cases l with
  | nil => trivial
  | cons b t => exact ⟨fun hc => absurd hc.1 (by simp [h]), hl⟩

theorem noWsPunct_cons_head {a : Char} {l : List Char}
    (h : ∀ b, l.head? = some b → isPunct b = false) (hl : noWsPunct l) :
    noWsPunct (a :: l) := by
  cases l with
  | nil => trivial
  | cons b t => exact ⟨fun hc => absurd hc.2 (by simp [h b rfl]), hl⟩

/-! ## Normalizer lemmas: `collapseWs` -/

/-- Whitespace collapsing leaves only plain spaces as whitespace. -/
theorem collapseWs_wsOnly (l : List Char) : wsOnlySpace (collapseWs l) := by
  induction l using collapseWs.induct with
  | case1 => intro c hc; simp [collapseWs] at hc
  | case2 c h =>
    intro d hd
    simp [collapseWs, h] at hd
    simp [hd]
  | case3 c h =>
    intro d hd
    simp [collapseWs, h] at hd
    subst hd
    intro hws
    exact absurd hws (by simp_all)
  | case4 c1 c2 rest h1 h2 ih => simpa [collapseWs, h1, h2] using ih
  | case5 c1 c2 rest h1 h2 ih =>
    intro d hd
    simp [collapseWs, h1, h2] at hd
    rcases hd with hd | hd
    · simp [hd]
    · exact ih d hd
  | case6 c1 c2 rest h1 ih =>
    intro d hd
    simp [collapseWs, h1] at hd
    rcases hd with hd | hd
    · subst hd
      intro hws
      exact absurd hws (by simp_all)
    · exact ih d hd

/-- Head of `collapseWs` on a non-whitespace head. -/
theorem collapseWs_cons_nonws {c : Char} (t : List Char) (h : isJsWs c = false) :
    collapseWs (c :: t) = c :: collapseWs t := by
  cases t with
  | nil => simp [collapseWs, h]
  | cons d ds => simp [collapseWs, h]

/-- Whitespace collapsing leaves no two adjacent whitespace characters. -/
theorem collapseWs_noDbl (l : List Char) : noDbl (collapseWs l) := by
  induction l using collapseWs.induct with
  | case1 => trivial
  | case2 c h => simp [collapseWs, h]; trivial
  | case3 c h => simp [collapseWs, h]; trivial
  | case4 c1 c2 rest h1 h2 ih => simpa [collapseWs, h1, h2] using ih
  | case5 c1 c2 rest h1 h2 ih =>
    have h2' : isJsWs c2 = false := by simp_all
    rw [show collapseWs (c1 :: c2 :: rest) = ' ' :: collapseWs (c2 :: rest) by
      simp [collapseWs, h1, h2']]
    rw [collapseWs_cons_nonws rest h2']
    rw [collapseWs_cons_nonws rest h2'] at ih
    exact ⟨fun hc => absurd hc.2 (by simp [h2']), ih⟩
  | case6 c1 c2 rest h1 ih =>
    have h1' : isJsWs c1 = false := by simp_all
    rw [show collapseWs (c1 :: c2 :: rest) = c1 :: collapseWs (c2 :: rest) by
      simp [collapseWs, h1']]
    exact noDbl_cons_nonws h1' ih

/-- On a list already satisfying the collapsing invariants, `collapseWs` is
the identity. -/
theorem collapseWs_id (l : List Char) (hws : wsOnlySpace l) (hd : noDbl l) :
    collapseWs l = l := by
  induction l using collapseWs.induct with
  | case1 => rfl
  | case2 c h =>
    have : c = ' ' := (wsOnlySpace_cons.mp hws).1 h
    simp [collapseWs, h, this]
  | case3 c h => simp [collapseWs, h]
  | case4 c1 c2 rest h1 h2 ih => exact absurd (noDbl_pair hd) (by simp [h1, h2])
  | case5 c1 c2 rest h1 h2 ih =>
    have hc1 : c1 = ' ' := (wsOnlySpace_cons.mp hws).1 h1
    have ht := ih (wsOnlySpace_cons.mp hws).2 (noDbl_tail hd)
    simp [collapseWs, h1, h2, hc1, ht]
  | case6 c1 c2 rest h1 ih =>
    have ht := ih (wsOnlySpace_cons.mp hws).2 (noDbl_tail hd)
    simp [collapseWs, h1, ht]

/-- Characters of `collapseWs l` are spaces or characters of `l`. -/
theorem mem_collapseWs {c : Char} : ∀ (l : List Char), c ∈ collapseWs l → c = ' ' ∨ c ∈ l := by
  intro l
  induction l using collapseWs.induct with
  | case1 => intro hc; simp [collapseWs] at hc
  | case2 d h =>
    intro hc
    simp [collapseWs, h] at hc
    exact Or.inl hc
  | case3 d h =>
    intro hc
    simp [collapseWs, h] at hc
    simp [hc]
  | case4 c1 c2 rest h1 h2 ih =>
    intro hc
    rcases ih (by simpa [collapseWs, h1, h2] using hc) with h | h
    · exact Or.inl h
    · simp [h]
  | case5 c1 c2 rest h1 h2 ih =>
    intro hc
    simp only [collapseWs, h1, h2, if_pos, if_neg, ite_true, ite_false] at hc
    rcases List.mem_cons.mp (by simpa [h1, h2] using hc) with h | h
    · exact Or.inl h
    · rcases ih h with h' | h'
      · exact Or.inl h'
      · simp [h']
  | case6 c1 c2 rest h1 ih =>
    intro hc
    rcases List.mem_cons.mp (by simpa [collapseWs, h1] using hc) with h | h
    · simp [h]
    · rcases ih h with h' | h'
      · exact Or.inl h'
      · simp [h']

/-! ## Normalizer lemmas: `stripWsPunct` -/

/-- A non-whitespace head passes through the space-before-punctuation step
when no run is pending. -/
theorem strip_cons_nonws {c : Char} (t : List Char) (h : isJsWs c = false) :
    stripWsPunct [] (c :: t) = c :: stripWsPunct [] t := by
  simp [stripWsPunct, h]

/-- A leading space starts a pending run. -/
theorem strip_cons_space (t : List Char) :
    stripWsPunct [] (' ' :: t) = stripWsPunct [' '] t := by
  simp [stripWsPunct, show isJsWs ' ' = true from by decide]

/-- A pending space followed by punctuation is deleted. -/
theorem strip_space_punct {d : Char} (t : List Char) (hp : isPunct d = true) :
    stripWsPunct [' '] (d :: t) = d :: stripWsPunct [] t := by
  simp [stripWsPunct, punct_not_ws hp, hp]

/-- A pending space at the end of the input is emitted. -/
theorem strip_space_nil : stripWsPunct [' '] [] = [' '] := rfl

/-- A pending space followed by a non-whitespace non-punctuation character is
emitted. -/
theorem strip_space_other {d : Char} (t : List Char) (hw : isJsWs d = false)
    (hp : isPunct d = false) :
    stripWsPunct [' '] (d :: t) = ' ' :: d :: stripWsPunct [] t := by
  simp [stripWsPunct, hw, hp]

/-- The space-before-punctuation step commutes with a trailing space. -/
theorem strip_append_space : ∀ (v run : List Char),
    stripWsPunct run (v ++ [' ']) = stripWsPunct run v ++ [' ']
  | [], run => by
    simp [stripWsPunct, show isJsWs ' ' = true from by decide]
  | c :: cs, run => by
    by_cases hw : isJsWs c = true
    · simp only [List.cons_append]
      rw [show stripWsPunct run (c :: (cs ++ [' '])) = stripWsPunct (c :: run) (cs ++ [' '])
          from by simp [stripWsPunct, hw],
        show stripWsPunct run (c :: cs) = stripWsPunct (c :: run) cs
          from by simp [stripWsPunct, hw]]
      exact strip_append_space cs (c :: run)
    · by_cases hp : (isPunct c && !run.isEmpty) = true
      · simp only [List.cons_append]
        rw [show stripWsPunct run (c :: (cs ++ [' '])) = c :: stripWsPunct [] (cs ++ [' '])
            from by simp [stripWsPunct, hw, hp],
          show stripWsPunct run (c :: cs) = c :: stripWsPunct [] cs
            from by simp [stripWsPunct, hw, hp]]
        simp [strip_append_space cs []]
      · simp only [List.cons_append]
        rw [show stripWsPunct run (c :: (cs ++ [' '])) =
              run.reverse ++ c :: stripWsPunct [] (cs ++ [' '])
            from by simp [stripWsPunct, hw, hp],
          show stripWsPunct run (c :: cs) = run.reverse ++ c :: stripWsPunct [] cs
            from by simp [stripWsPunct, hw, hp]]
        simp [strip_append_space cs []]

/-- Characters of the space-before-punctuation step come from the pending run
or the input. -/
theorem mem_strip {c : Char} : ∀ (l run : List Char),
    c ∈ stripWsPunct run l → c ∈ run ∨ c ∈ l
  | [], run => by
    intro hc
    simp [stripWsPunct] at hc
    simp [hc]
  | d :: ds, run => by
    intro hc
    by_cases hw : isJsWs d = true
    · rw [show stripWsPunct run (d :: ds) = stripWsPunct (d :: run) ds
          from by simp [stripWsPunct, hw]] at hc
      rcases mem_strip ds (d :: run) hc with h | h
      · rcases List.mem_cons.mp h with h' | h'
        · simp [h']
        · simp [h']
      · simp [h]
    · by_cases hp : (isPunct d && !run.isEmpty) = true
      · rw [show stripWsPunct run (d :: ds) = d :: stripWsPunct [] ds
            from by simp [stripWsPunct, hw, hp]] at hc
        rcases List.mem_cons.mp hc with h | h
        · simp [h]
        · rcases mem_strip ds [] h with h' | h'
          · simp at h'
          · simp [h']
      · rw [show stripWsPunct run (d :: ds) = run.reverse ++ d :: stripWsPunct [] ds
            from by simp [stripWsPunct, hw, hp]] at hc
        rcases List.mem_append.mp hc with h | h
        · simp at h
          simp [h]
        · rcases List.mem_cons.mp h with h' | h'
          · simp [h']
          · rcases mem_strip ds [] h' with h'' | h''
            · simp at h''
            · simp [h'']

/-- Invariants established by the space-before-punctuation step on collapsed
input: whitespace stays plain and isolated, and no whitespace character is
followed by punctuation. -/
theorem strip_invariants : ∀ (n : Nat) (l : List Char), l.length ≤ n →
    wsOnlySpace l → noDbl l →
    wsOnlySpace (stripWsPunct [] l) ∧ noDbl (stripWsPunct [] l) ∧
      noWsPunct (stripWsPunct [] l) := by
  intro n
  induction n with
  | zero =>
    intro l hl _ _
    have : l = [] := by cases l <;> simp_all
    subst this
    exact ⟨by intro c hc; simp [stripWsPunct] at hc, trivial, trivial⟩
  | succ n ih =>
    intro l hl hws hd
    match l with
    | [] => exact ⟨by intro c hc; simp [stripWsPunct] at hc, trivial, trivial⟩
    | c :: cs =>
      by_cases hw : isJsWs c = true
      · have hc : c = ' ' := (wsOnlySpace_cons.mp hws).1 hw
        subst hc
        rw [strip_cons_space]
        match cs, hws, hd, hl with
        | [], _, _, _ =>
          rw [strip_space_nil]
          refine ⟨?_, trivial, trivial⟩
          intro d hd'
          simp at hd'
          simp [hd']
        | d :: ds, hws, hd, hl =>
          have hdnw : isJsWs d = false := by
            by_contra hcon
            simp only [Bool.not_eq_false] at hcon
            exact (noDbl_pair hd) ⟨by decide, hcon⟩
          have htail : wsOnlySpace ds := (wsOnlySpace_cons.mp (wsOnlySpace_cons.mp hws).2).2
          have hdtl : noDbl ds := noDbl_tail (noDbl_tail hd)
          have hlen : ds.length ≤ n := by simp at hl; omega
          obtain ⟨i1, i2, i3⟩ := ih ds hlen htail hdtl
          by_cases hp : isPunct d = true
          · rw [strip_space_punct ds hp]
            exact ⟨wsOnlySpace_cons.mpr ⟨by simp [hdnw], i1⟩,
                   noDbl_cons_nonws hdnw i2, noWsPunct_cons_nonws hdnw i3⟩
          · simp only [Bool.not_eq_true] at hp
            rw [strip_space_other ds hdnw hp]
            refine ⟨?_, ?_, ?_⟩
            · exact wsOnlySpace_cons.mpr ⟨fun _ => rfl,
                wsOnlySpace_cons.mpr ⟨by simp [hdnw], i1⟩⟩
            · exact noDbl_cons_head (by intro b hb; simp at hb; subst hb; exact hdnw)
                (noDbl_cons_nonws hdnw i2)
            · exact noWsPunct_cons_head (by intro b hb; simp at hb; subst hb; exact hp)
                (noWsPunct_cons_nonws hdnw i3)
      · simp only [Bool.not_eq_true] at hw
        rw [strip_cons_nonws cs hw]
        have hlen : cs.length ≤ n := by simp at hl; omega
        obtain ⟨i1, i2, i3⟩ := ih cs hlen (wsOnlySpace_cons.mp hws).2 (noDbl_tail hd)
        exact ⟨wsOnlySpace_cons.mpr ⟨(wsOnlySpace_cons.mp hws).1, i1⟩,
               noDbl_cons_nonws hw i2, noWsPunct_cons_nonws hw i3⟩

/-! ## Normalizer lemmas: `spacePunct` -/

/-- A non-punctuation head passes through the spacing step unchanged. -/
theorem sp_cons_nonpunct {c : Char} (t : List Char) (hp : isPunct c = false) :
    spacePunct (c :: t) = c :: spacePunct t := by
  cases t with
  | nil => rfl
  | cons d ds => simp [spacePunct, hp]

/-- A punctuation head followed by whitespace is not matched. -/
theorem sp_punct_ws {p c : Char} (rest : List Char) (hc : isJsWs c = true) :
    spacePunct (p :: c :: rest) = p :: spacePunct (c :: rest) := by
  simp [spacePunct, hc]

/-- A punctuation head followed by non-whitespace receives a space, and the
scan resumes after both characters. -/
theorem sp_match {p c : Char} (rest : List Char) (hp : isPunct p = true)
    (hc : isJsWs c = false) :
    spacePunct (p :: c :: rest) = p :: ' ' :: c :: spacePunct rest := by
  simp [spacePunct, hp, hc]

/-- The spacing step preserves the head character. -/
theorem sp_head (c : Char) (t : List Char) : ∃ t', spacePunct (c :: t) = c :: t' := by
  cases t with
  | nil => exact ⟨[], rfl⟩
  | cons d ds =>
    by_cases h : (isPunct c && !isJsWs d) = true
    · exact ⟨' ' :: d :: spacePunct ds, by simp [spacePunct, h]⟩
    · exact ⟨spacePunct (d :: ds), by simp [spacePunct, h]⟩

/-- The spacing step commutes with a trailing space. -/
theorem sp_append_space (v : List Char) : spacePunct (v ++ [' ']) = spacePunct v ++ [' '] := by
  induction v using spacePunct.induct with
  | case1 => rfl
  | case2 c =>
    show spacePunct [c, ' '] = spacePunct [c] ++ [' ']
    simp [spacePunct, show isJsWs ' ' = true from by decide]
  | case3 p c rest h ih =>
    show spacePunct (p :: c :: (rest ++ [' '])) = _
    rw [show spacePunct (p :: c :: (rest ++ [' '])) = p :: ' ' :: c :: spacePunct (rest ++ [' '])
        from by simp [spacePunct, h], ih,
      show spacePunct (p :: c :: rest) = p :: ' ' :: c :: spacePunct rest
        from by simp [spacePunct, h]]
    rfl
  | case4 p c rest h ih =>
    show spacePunct (p :: c :: (rest ++ [' '])) = _
    rw [show spacePunct (p :: c :: (rest ++ [' '])) = p :: spacePunct (c :: (rest ++ [' ']))
        from by simp [spacePunct, h],
      show (c :: (rest ++ [' '])) = (c :: rest) ++ [' '] from rfl, ih,
      show spacePunct (p :: c :: rest) = p :: spacePunct (c :: rest)
        from by simp [spacePunct, h]]
    rfl

/-- Characters of the spacing step come from the input or are spaces. -/
theorem mem_spacePunct {a : Char} : ∀ (l : List Char), a ∈ spacePunct l → a = ' ' ∨ a ∈ l := by
  intro l
  induction l using spacePunct.induct with
  | case1 => intro h; simp [spacePunct] at h
  | case2 c =>
    intro h
    simp [spacePunct] at h
    simp [h]
  | case3 p c rest h ih =>
    intro ha
    rw [show spacePunct (p :: c :: rest) = p :: ' ' :: c :: spacePunct rest
        from by simp [spacePunct, h]] at ha
    simp only [List.mem_cons] at ha
    rcases ha with h' | h' | h' | h'
    · simp [h']
    · simp [h']
    · simp [h']
    · rcases ih h' with h'' | h''
      · simp [h'']
      · simp [h'']
  | case4 p c rest h ih =>
    intro ha
    rw [show spacePunct (p :: c :: rest) = p :: spacePunct (c :: rest)
        from by simp [spacePunct, h]] at ha
    rcases List.mem_cons.mp ha with h' | h'
    · simp [h']
    · rcases ih h' with h'' | h''
      · simp [h'']
      · simp [h'']

/-- The spacing step preserves the whitespace invariants. -/
theorem sp_invariants : ∀ (u : List Char), wsOnlySpace u → noDbl u →
    wsOnlySpace (spacePunct u) ∧ noDbl (spacePunct u) := by
  intro u
  induction u using spacePunct.induct with
  | case1 => exact fun _ _ => ⟨by intro c hc; simp [spacePunct] at hc, trivial⟩
  | case2 c =>
    intro hws _
    refine ⟨?_, trivial⟩
    intro d hd
    simp [spacePunct] at hd
    subst hd
    exact (wsOnlySpace_cons.mp hws).1
  | case3 p c rest h ih =>
    intro hws hd
    simp only [Bool.and_eq_true, Bool.not_eq_true'] at h
    obtain ⟨hp, hc⟩ := h
    obtain ⟨i1, i2⟩ := ih (wsOnlySpace_cons.mp (wsOnlySpace_cons.mp hws).2).2
      (noDbl_tail (noDbl_tail hd))
    rw [sp_match rest hp hc]
    constructor
    · exact wsOnlySpace_cons.mpr ⟨(wsOnlySpace_cons.mp hws).1,
        wsOnlySpace_cons.mpr ⟨fun _ => rfl,
          wsOnlySpace_cons.mpr ⟨(wsOnlySpace_cons.mp (wsOnlySpace_cons.mp hws).2).1, i1⟩⟩⟩
    · exact noDbl_cons_nonws (punct_not_ws hp)
        (noDbl_cons_head (by intro b hb; simp at hb; subst hb; exact hc)
          (noDbl_cons_nonws hc i2))
  | case4 p c rest h ih =>
    intro hws hd
    obtain ⟨i1, i2⟩ := ih (wsOnlySpace_cons.mp hws).2 (noDbl_tail hd)
    rw [show spacePunct (p :: c :: rest) = p :: spacePunct (c :: rest)
        from by simp [spacePunct, h]]
    constructor
    · exact wsOnlySpace_cons.mpr ⟨(wsOnlySpace_cons.mp hws).1, i1⟩
    · obtain ⟨t', ht'⟩ := sp_head c rest
      rw [ht'] at i2 ⊢
      by_cases hpws : isJsWs p = true
      · refine noDbl_cons_head ?_ i2
        intro b hb
        simp at hb
        subst hb
        by_contra hcon
        simp only [Bool.not_eq_false] at hcon
        exact (noDbl_pair hd) ⟨hpws, hcon⟩
      · exact noDbl_cons_nonws (by simp_all) i2

/-! ## Normalizer: the core fixed-point theorem

For input satisfying the collapsed-whitespace invariants and carrying no
whitespace-before-punctuation, one application of the spacing step produces a
fixed point of (strip; space): re-running the two spacing rewrites changes
nothing. -/

theorem fix_core : ∀ (n : Nat) (u : List Char), u.length ≤ n →
    wsOnlySpace u → noDbl u → noWsPunct u →
    spacePunct (stripWsPunct [] (spacePunct u)) = spacePunct u := by
  intro n
  induction n with
  | zero =>
    intro u hl _ _ _
    have : u = [] := by cases u <;> simp_all
    subst this
    rfl
  | succ n ih =>
    intro u hl hws hd hwp
    cases u with
    | nil => rfl
    | cons p u2 =>
      cases u2 with
      | nil =>
        by_cases hw : isJsWs p = true
        · have hc : p = ' ' := (wsOnlySpace_cons.mp hws).1 hw
          subst hc
          rfl
        · simp only [Bool.not_eq_true] at hw
          rw [show spacePunct [p] = [p] from rfl, strip_cons_nonws [] hw]
          rfl
      | cons c rest =>
        have hwsc : wsOnlySpace (c :: rest) := (wsOnlySpace_cons.mp hws).2
        have hdc : noDbl (c :: rest) := noDbl_tail hd
        have hwpc : noWsPunct (c :: rest) := noWsPunct_tail hwp
        have hlenc : (c :: rest).length ≤ n := by simp at hl ⊢; omega
        have hlenr : rest.length ≤ n := by simp at hl ⊢; omega
        have hwsr : wsOnlySpace rest := (wsOnlySpace_cons.mp hwsc).2
        have hdr : noDbl rest := noDbl_tail hdc
        have hwpr : noWsPunct rest := noWsPunct_tail hwpc
        by_cases hm : (isPunct p && !isJsWs c) = true
        · obtain ⟨hp, hc⟩ : isPunct p = true ∧ isJsWs c = false := by
            simpa [Bool.and_eq_true, Bool.not_eq_true'] using hm
          by_cases hcp : isPunct c = true
          · rw [sp_match rest hp hc, strip_cons_nonws _ (punct_not_ws hp), strip_cons_space,
              strip_space_punct _ hcp, sp_match _ hp hc, ih rest hlenr hwsr hdr hwpr]
          · simp only [Bool.not_eq_true] at hcp
            rw [sp_match rest hp hc, strip_cons_nonws _ (punct_not_ws hp), strip_cons_space,
              strip_space_other _ hc hcp, sp_punct_ws _ (by decide),
              sp_cons_nonpunct _ (by decide), sp_cons_nonpunct _ hcp,
              ih rest hlenr hwsr hdr hwpr]
        · rw [show spacePunct (p :: c :: rest) = p :: spacePunct (c :: rest)
              from by simp [spacePunct, hm]]
          obtain ⟨t', ht'⟩ := sp_head c rest
          by_cases hpw : isJsWs p = true
          · have hp' : p = ' ' := (wsOnlySpace_cons.mp hws).1 hpw
            subst hp'
            have hcw : isJsWs c = false := by
              by_contra hcon
              simp only [Bool.not_eq_false] at hcon
              exact (noDbl_pair hd) ⟨by decide, hcon⟩
            have hcp : isPunct c = false := by
              by_contra hcon
              simp only [Bool.not_eq_false] at hcon
              exact hwp.1 ⟨by decide, hcon⟩
            rw [strip_cons_space, ht', strip_space_other _ hcw hcp,
              ← strip_cons_nonws _ hcw, ← ht',
              sp_cons_nonpunct _ (by decide), ih (c :: rest) hlenc hwsc hdc hwpc]
          · simp only [Bool.not_eq_true] at hpw
            rw [strip_cons_nonws _ hpw]
            by_cases hpp : isPunct p = true
            · have hcw : isJsWs c = true := by
                by_contra hcon
                simp only [Bool.not_eq_true] at hcon
                exact hm (by simp [hpp, hcon])
              have hc' : c = ' ' := (wsOnlySpace_cons.mp hwsc).1 hcw
              subst hc'
              rw [show spacePunct (' ' :: rest) = ' ' :: spacePunct rest
                  from sp_cons_nonpunct _ (by decide), strip_cons_space]
              cases rest with
              | nil =>
                rw [show spacePunct ([] : List Char) = [] from rfl, strip_space_nil,
                  sp_punct_ws _ (by decide)]
                rfl
              | cons e es =>
                have hew : isJsWs e = false := by
                  by_contra hcon
                  simp only [Bool.not_eq_false] at hcon
                  exact (noDbl_pair hdc) ⟨by decide, hcon⟩
                have hep : isPunct e = false := by
                  by_contra hcon
                  simp only [Bool.not_eq_false] at hcon
                  exact hwpc.1 ⟨by decide, hcon⟩
                obtain ⟨t2, ht2⟩ := sp_head e es
                rw [ht2, strip_space_other _ hew hep, ← strip_cons_nonws _ hew, ← ht2,
                  sp_punct_ws _ (by decide), sp_cons_nonpunct _ (by decide),
                  ih (e :: es) hlenr hwsr hdr hwpr]
            · simp only [Bool.not_eq_true] at hpp
              rw [sp_cons_nonpunct _ hpp, ih (c :: rest) hlenc hwsc hdc hwpc]

/-! ## Normalizer lemmas: trimming -/

theorem dropLead_cons_nonws {c : Char} (t : List Char) (h : isJsWs c = false) :
    dropLead (c :: t) = c :: t := by
  simp [dropLead, List.dropWhile_cons, h]

theorem dropLead_cons_ws {c : Char} (t : List Char) (h : isJsWs c = true) :
    dropLead (c :: t) = dropLead t := by
  simp [dropLead, List.dropWhile_cons, h]

/-- The head surviving a leading-whitespace drop is not whitespace. -/
theorem dropWhile_ws_head : ∀ (l : List Char) (c : Char),
    (l.dropWhile isJsWs).head? = some c → isJsWs c = false := by
  intro l
  induction l with
  | nil => intro c hc; simp at hc
  | cons d t ih =>
    intro c hc
    by_cases hd : isJsWs d = true
    · rw [List.dropWhile_cons, if_pos hd] at hc
      exact ih c hc
    · rw [List.dropWhile_cons, if_neg hd] at hc
      simp at hc
      subst hc
      simpa using hd

theorem dropLead_eq_self {l : List Char}
    (h : ∀ c, l.head? = some c → isJsWs c = false) : dropLead l = l := by
  cases l with
  | nil => rfl
  | cons c t => exact dropLead_cons_nonws t (h c rfl)

theorem dropTrail_eq_self {l : List Char}
    (h : ∀ c, l.getLast? = some c → isJsWs c = false) : dropTrail l = l := by
  unfold dropTrail
  have hself : l.reverse.dropWhile isJsWs = l.reverse := by
    cases hrev : l.reverse with
    | nil => rfl
    | cons c t =>
      rw [List.dropWhile_cons, if_neg]
      have hlast : l.getLast? = some c := by
        rw [← List.head?_reverse, hrev]
        rfl
      simp [h c hlast]
  rw [hself, List.reverse_reverse]

theorem dropTrail_append_ws {a : Char} (v : List Char) (h : isJsWs a = true) :
    dropTrail (v ++ [a]) = dropTrail v := by
  unfold dropTrail
  rw [List.reverse_append]
  simp [List.dropWhile_cons, h]

/-- Decomposition of a list into its trail-trimmed prefix and a whitespace
tail. -/
theorem dropTrail_decomp (l : List Char) :
    ∃ t, l = dropTrail l ++ t ∧ ∀ c ∈ t, isJsWs c = true := by
  refine ⟨(l.reverse.takeWhile isJsWs).reverse, ?_, ?_⟩
  · conv_lhs => rw [← List.reverse_reverse l,
      ← List.takeWhile_append_dropWhile isJsWs l.reverse]
    rw [List.reverse_append]
    rfl
  · intro c hc
    exact List.mem_takeWhile_imp (List.mem_reverse.mp hc)

theorem mem_dropLead {a : Char} {l : List Char} (h : a ∈ dropLead l) : a ∈ l :=
  (List.dropWhile_sublist isJsWs).mem h

theorem mem_dropTrail {a : Char} {l : List Char} (h : a ∈ dropTrail l) : a ∈ l := by
  unfold dropTrail at h
  have := (List.dropWhile_sublist isJsWs).mem (List.mem_reverse.mp h)
  exact List.mem_reverse.mp this

theorem noDbl_dropLead {l : List Char} (h : noDbl l) : noDbl (dropLead l) := by
  induction l with
  | nil => trivial
  | cons c t ih =>
    by_cases hc : isJsWs c = true
    · rw [dropLead_cons_ws t hc]
      exact ih (noDbl_tail h)
    · rw [dropLead_cons_nonws t (by simpa using hc)]
      exact h

theorem noDbl_append_left : ∀ {a b : List Char}, noDbl (a ++ b) → noDbl a
  | [], _, _ => trivial
  | [_], _, _ => trivial
  | x :: y :: t, b, h => by
    have h' : noDbl ((x :: y :: t) ++ b) := h
    exact ⟨h'.1, noDbl_append_left (a := y :: t) h'.2⟩

theorem noDbl_dropTrail {l : List Char} (h : noDbl l) : noDbl (dropTrail l) := by
  obtain ⟨t, hdec, -⟩ := dropTrail_decomp l
  rw [hdec] at h
  exact noDbl_append_left h

/-- The head of the trail-trimmed list is the head of the list. -/
theorem dropTrail_head (l : List Char) :
    dropTrail l = [] ∨ (dropTrail l).head? = l.head? := by
  obtain ⟨t, hdec, -⟩ := dropTrail_decomp l
  cases hdt : dropTrail l with
  | nil => exact Or.inl rfl
  | cons a s =>
    right
    rw [hdec, hdt]
    rfl

/-- The last character of a trail-trimmed list is not whitespace. -/
theorem dropTrail_last {l : List Char} {c : Char} (h : (dropTrail l).getLast? = some c) :
    isJsWs c = false := by
  unfold dropTrail at h
  rw [List.getLast?_reverse] at h
  exact dropWhile_ws_head _ _ h

/-! ## Normalizer lemmas: invariant transport through maps -/

theorem wsOnlySpace_of_subset {l₁ l₂ : List Char}
    (hsub : ∀ c ∈ l₁, c = ' ' ∨ c ∈ l₂) (h : wsOnlySpace l₂) : wsOnlySpace l₁ := by
  intro c hc hwc
  rcases hsub c hc with h' | h'
  · exact h'
  · exact h c h' hwc

theorem wsOnly_map_bulletDash {l : List Char} (h : wsOnlySpace l) :
    wsOnlySpace (l.map bulletDash) := by
  intro c hc hwc
  obtain ⟨d, hd, rfl⟩ := List.mem_map.mp hc
  rw [bulletDash_ws] at hwc
  rw [h d hd hwc]
  decide

theorem noDbl_map_bulletDash : ∀ {l : List Char}, noDbl l → noDbl (l.map bulletDash)
  | [], _ => trivial
  | [_], _ => trivial
  | a :: b :: t, h => by
    refine ⟨fun hc => h.1 ⟨?_, ?_⟩, noDbl_map_bulletDash (l := b :: t) h.2⟩
    · rw [← bulletDash_ws]; exact hc.1
    · rw [← bulletDash_ws]; exact hc.2

theorem bulletFixed_map (l : List Char) : bulletFixed (l.map bulletDash) := by
  intro c hc
  obtain ⟨d, -, rfl⟩ := List.mem_map.mp hc
  exact bulletDash_fix d

theorem map_id_of_fixed {f : Char → Char} : ∀ {l : List Char}, (∀ c ∈ l, f c = c) →
    l.map f = l
  | [], _ => rfl
  | c :: t, h => by
    rw [List.map_cons, h c (by simp), map_id_of_fixed (fun d hd => h d (by simp [hd]))]

/-! ## Normalizer: trimming preserves the fixed point -/

/-- Dropping leading whitespace of a spaced list lands on the spacing step of
a smaller well-formed input. -/
theorem leadfix (u : List Char) (hws : wsOnlySpace u) (hd : noDbl u) (hwp : noWsPunct u) :
    ∃ u', wsOnlySpace u' ∧ noDbl u' ∧ noWsPunct u' ∧
      dropLead (spacePunct u) = spacePunct u' := by
  cases u with
  | nil => exact ⟨[], by intro c hc; simp at hc, trivial, trivial, rfl⟩
  | cons c t =>
    by_cases hw : isJsWs c = true
    · have hc' : c = ' ' := (wsOnlySpace_cons.mp hws).1 hw
      subst hc'
      rw [sp_cons_nonpunct _ (by decide), dropLead_cons_ws _ (by decide)]
      cases t with
      | nil => exact ⟨[], by intro c hc; simp at hc, trivial, trivial, rfl⟩
      | cons d ds =>
        have hdw : isJsWs d = false := by
          by_contra hcon
          simp only [Bool.not_eq_false] at hcon
          exact (noDbl_pair hd) ⟨by decide, hcon⟩
        obtain ⟨t', ht'⟩ := sp_head d ds
        refine ⟨d :: ds, (wsOnlySpace_cons.mp hws).2, noDbl_tail hd, noWsPunct_tail hwp, ?_⟩
        rw [ht', dropLead_cons_nonws _ hdw]
    · simp only [Bool.not_eq_true] at hw
      refine ⟨c :: t, hws, hd, hwp, ?_⟩
      obtain ⟨t', ht'⟩ := sp_head c t
      rw [ht', dropLead_cons_nonws _ hw]

/-- Dropping trailing whitespace preserves being a fixed point of
(strip; space). -/
theorem trailfix : ∀ (n : Nat) (x : List Char), x.length ≤ n → wsOnlySpace x →
    spacePunct (stripWsPunct [] x) = x →
    spacePunct (stripWsPunct [] (dropTrail x)) = dropTrail x := by
  intro n
  induction n with
  | zero =>
    intro x hl _ hfix
    have : x = [] := by cases x <;> simp_all
    subst this
    exact hfix
  | succ n ih =>
    intro x hl hws hfix
    cases hrev : x.reverse with
    | nil =>
      have : x = [] := by simpa [List.reverse_eq_nil_iff] using hrev
      subst this
      exact hfix
    | cons a t =>
      have hx : x = t.reverse ++ [a] := by
        rw [← List.reverse_reverse x, hrev]
        simp
      by_cases hwa : isJsWs a = true
      · have ha : a = ' ' := hws a (by rw [hx]; simp) hwa
        subst ha
        have hfix' : spacePunct (stripWsPunct [] t.reverse) = t.reverse := by
          have h2 := hfix
          rw [hx, strip_append_space, sp_append_space] at h2
          exact List.append_left_injective _ h2
        have hdt : dropTrail x = dropTrail t.reverse := by
          rw [hx]
          exact dropTrail_append_ws _ (by decide)
        rw [hdt]
        refine ih t.reverse ?_ ?_ hfix'
        · have hxlen : x.length = t.length + 1 := by rw [hx]; simp
          simp only [List.length_reverse]
          omega
        · intro c hc hcw
          exact hws c (by rw [hx]; exact List.mem_append_left _ hc) hcw
      · have hlast : x.getLast? = some a := by
          rw [← List.head?_reverse, hrev]
          rfl
        rw [dropTrail_eq_self (fun c hc => by
          rw [hlast] at hc
          injection hc with h
          subst h
          simpa using hwa)]
        exact hfix

/-- The trimmed spacing output of a well-formed input is a fixed point of
(strip; space). -/
theorem strip_sp_trim_fix (u : List Char) (hws : wsOnlySpace u) (hd : noDbl u)
    (hwp : noWsPunct u) :
    spacePunct (stripWsPunct [] (jsTrimL (spacePunct u))) = jsTrimL (spacePunct u) := by
  obtain ⟨u', i1, i2, i3, heq⟩ := leadfix u hws hd hwp
  rw [show jsTrimL (spacePunct u) = dropTrail (dropLead (spacePunct u)) from rfl, heq]
  exact trailfix (spacePunct u').length _ le_rfl (sp_invariants u' i1 i2).1
    (fix_core u'.length u' le_rfl i1 i2 i3)

/-- The character-list normalizer is idempotent. -/
theorem cleanTextL_idem (l : List Char) : cleanTextL (cleanTextL l) = cleanTextL l := by
  have hmaps : ((((collapseWs l).map mapFormFeed).map bulletDash).map straightDQ).map
      straightSQ = (collapseWs l).map bulletDash := by
    rw [map_mapFormFeed_id _ (collapseWs_wsOnly l), map_straightDQ_id, map_straightSQ_id]
  have hzw : wsOnlySpace ((collapseWs l).map bulletDash) :=
    wsOnly_map_bulletDash (collapseWs_wsOnly l)
  have hzd : noDbl ((collapseWs l).map bulletDash) :=
    noDbl_map_bulletDash (collapseWs_noDbl l)
  have hzb : bulletFixed ((collapseWs l).map bulletDash) := bulletFixed_map _
  obtain ⟨hu1, hu2, hu3⟩ := strip_invariants ((collapseWs l).map bulletDash).length
    ((collapseWs l).map bulletDash) le_rfl hzw hzd
  have hyeq : cleanTextL l =
      jsTrimL (spacePunct (stripWsPunct [] ((collapseWs l).map bulletDash))) := by
    unfold cleanTextL
    rw [hmaps]
  obtain ⟨hw1, hw2⟩ := sp_invariants _ hu1 hu2
  have hyw : wsOnlySpace (jsTrimL (spacePunct (stripWsPunct []
      ((collapseWs l).map bulletDash)))) :=
    fun c hc hcw => hw1 c (mem_dropLead (mem_dropTrail hc)) hcw
  have hyd : noDbl (jsTrimL (spacePunct (stripWsPunct []
      ((collapseWs l).map bulletDash)))) := noDbl_dropTrail (noDbl_dropLead hw2)
  have hyb : bulletFixed (jsTrimL (spacePunct (stripWsPunct []
      ((collapseWs l).map bulletDash)))) := by
    intro c hc
    rcases mem_spacePunct _ (mem_dropLead (mem_dropTrail hc)) with h' | h'
    · subst h'
      decide
    · rcases mem_strip _ _ h' with h'' | h''
      · simp at h''
      · exact hzb c h''
  have hfix : spacePunct (stripWsPunct [] (jsTrimL (spacePunct (stripWsPunct []
      ((collapseWs l).map bulletDash))))) =
      jsTrimL (spacePunct (stripWsPunct [] ((collapseWs l).map bulletDash))) :=
    strip_sp_trim_fix _ hu1 hu2 hu3
  have hylead : dropLead (jsTrimL (spacePunct (stripWsPunct []
      ((collapseWs l).map bulletDash)))) =
      jsTrimL (spacePunct (stripWsPunct [] ((collapseWs l).map bulletDash))) := by
    apply dropLead_eq_self
    intro c hc
    rcases dropTrail_head (dropLead (spacePunct (stripWsPunct []
      ((collapseWs l).map bulletDash)))) with h0 | h0
    · rw [show jsTrimL (spacePunct (stripWsPunct [] ((collapseWs l).map bulletDash))) =
          dropTrail (dropLead (spacePunct (stripWsPunct []
            ((collapseWs l).map bulletDash)))) from rfl, h0] at hc
      simp at hc
    · rw [show jsTrimL (spacePunct (stripWsPunct [] ((collapseWs l).map bulletDash))) =
          dropTrail (dropLead (spacePunct (stripWsPunct []
            ((collapseWs l).map bulletDash)))) from rfl, h0] at hc
      exact dropWhile_ws_head _ c hc
  have hytrail : dropTrail (jsTrimL (spacePunct (stripWsPunct []
      ((collapseWs l).map bulletDash)))) =
      jsTrimL (spacePunct (stripWsPunct [] ((collapseWs l).map bulletDash))) :=
    dropTrail_eq_self (fun c hc => dropTrail_last hc)
  have hytrim : jsTrimL (jsTrimL (spacePunct (stripWsPunct []
      ((collapseWs l).map bulletDash)))) =
      jsTrimL (spacePunct (stripWsPunct [] ((collapseWs l).map bulletDash))) := by
    rw [show jsTrimL (jsTrimL (spacePunct (stripWsPunct []
      ((collapseWs l).map bulletDash)))) =
        dropTrail (dropLead (jsTrimL (spacePunct (stripWsPunct []
          ((collapseWs l).map bulletDash))))) from rfl, hylead, hytrail]
  rw [hyeq]
  unfold cleanTextL
  rw [collapseWs_id _ hyw hyd, map_mapFormFeed_id _ hyw, map_id_of_fixed hyb,
    map_straightDQ_id, map_straightSQ_id, hfix, hytrim]

/-- C3: the text normalizer `cleanText` is idempotent — normalizing already
normalized text yields the same text, for every input string. -/
theorem claim3_cleanText_idempotent (s : String) :
    cleanText (cleanText s) = cleanText s := by
  show (⟨cleanTextL (cleanText s).data⟩ : String) = ⟨cleanTextL s.data⟩
  rw [show (cleanText s).data = cleanTextL s.data from rfl, cleanTextL_idem]
